import Mathlib

/-!
Shallow embedding of the `hyper` HTTP-client core.

Embedded source files:
* `src/status.rs` — `StatusCode`, `StatusClass`, the classification function,
  the default-code mapping and the validating numeric constructors.
* `src/client/mod.rs` — `RedirectPolicy`, `Body`/`IntoBody`, `RequestOptions`
  and the `Client::request` redirect control loop.

Modelling conventions:
* Machine integers (`u16`, `uint`) are modelled as `Nat`; where the source
  performs an `as u16` cast we write `% 65536` explicitly, and where an
  argument's Rust type already bounds it (a `u16` parameter) the bound appears
  as a hypothesis `n < 65536` on the theorems.
* The wire layer (`Request::with_stream`, `start`, `send`) and the URL parser
  are external collaborators of this core.  They are abstracted as two
  function parameters: `env : Url → Except HttpError Response` (one full
  request/response exchange against the transport for a given target URL) and
  `resolve : Url → String → Option Url` (parse a Location header value against
  a base URL; `none` models `Err(ParseError)`, which the client code only ever
  pattern-matches on `Ok`/`Err`).
* The unbounded `loop { }` of `Client::request` is embedded with an explicit
  fuel argument: the result's first component is `none` exactly when the loop
  would still be running after `fuel` iterations, so termination statements
  say that for all sufficiently large fuel the result is `some _`.
* Each physical hop is recorded in a trace entry (`Hop`) carrying the request
  the client built for that hop: the method and URL given to
  `Request::with_stream`, the caller-header overlay, the `ContentLength`
  header value the client itself set (`none` = the client set none), and
  whether the client copied body bytes onto the stream (`body.take()` + `copy`).
-/

deriving instance DecidableEq for Except

namespace Hyper

/-! ## Status codes (`src/status.rs`) -/

/-- A Rust `pub struct StatusCode(u16)`: the numeric value, modelled as `Nat`. -/
structure StatusCode where
  code : Nat
deriving DecidableEq

/-- The class of an HTTP Status-Code (`enum StatusClass` in `src/status.rs`);
the Rust enum carries C-style discriminants 100..500, modelled by
`StatusClass.discriminant`. -/
inductive StatusClass where
  | Informational
  | Success
  | Redirection
  | ClientError
  | ServerError
deriving DecidableEq

/-- The C-enum discriminant of `StatusClass` (`Informational = 100`, ...,
`ServerError = 500`). -/
def StatusClass.discriminant : StatusClass → Nat
  | .Informational => 100
  | .Success => 200
  | .Redirection => 300
  | .ClientError => 400
  | .ServerError => 500

/-- Rust `StatusCode::from_code(code: u16) -> StatusCode`: wraps the integer
with no range check (`StatusCode(code)`). -/
def StatusCode.from_code (code : Nat) : StatusCode :=
  ⟨code⟩

/-- Rust `StatusCode::class(&self)`: classify by leading digit through the
chain of `<` comparisons of the source. -/
def StatusCode.«class» (s : StatusCode) : StatusClass :=
  if s.code < 200 then StatusClass.Informational
  else if s.code < 300 then StatusClass.Success
  else if s.code < 400 then StatusClass.Redirection
  else if s.code < 500 then StatusClass.ClientError
  else StatusClass.ServerError

/-- Rust `StatusClass::default_code(&self)`: `transmute::<StatusClass,
StatusCode>(*self)`, i.e. the StatusCode whose value is the class's
discriminant. -/
def StatusClass.default_code (c : StatusClass) : StatusCode :=
  ⟨c.discriminant⟩

/-- Rust `FromPrimitive::from_i64` for StatusCode: reject outside `[100,599]`,
otherwise `transmute(n as u16)`. -/
def StatusCode.from_i64 (n : Int) : Option StatusCode :=
  if n < 100 ∨ 599 < n then none else some ⟨n.toNat % 65536⟩

/-- Rust `FromPrimitive::from_u64` for StatusCode: reject outside `[100,599]`,
otherwise `transmute(n as u16)`. -/
def StatusCode.from_u64 (n : Nat) : Option StatusCode :=
  if n < 100 ∨ 599 < n then none else some ⟨n % 65536⟩

/-! ## The client core (`src/client/mod.rs`) -/

/-- URLs are opaque to the client loop (parsing/resolution is the url crate's
job); we model them as strings. -/
abbrev Url := String

/-- The header collection is external ("ordered, settable, gettable,
mergeable"); the client only threads the caller's overlay through, so we model
it as an opaque association list. -/
abbrev Headers := List (String × String)

/-- Modelled from the spec: `method.rs` is not under `src/`; the client code
matches on `Method::Get` and `Method::Head` and constructs `Method::Post`, and
the remaining variants are the standard HTTP methods. Only the Get/Head
versus rest distinction is ever consulted by this core. -/
inductive Method where
  | Options
  | Get
  | Post
  | Put
  | Delete
  | Head
  | Trace
  | Connect
  | Patch
  | Extension (name : String)
deriving DecidableEq

/-- The `can_have_body` match of `Client::request`:
`&Method::Get | &Method::Head => false, _ => true`. -/
def can_have_body : Method → Bool
  | .Get | .Head => false
  | _ => true

/-- Rust `enum Body<'a>`: a chunked body wraps an opaque reader (modelled as
the byte sequence it yields), a sized body wraps a `BufReader` over bytes plus
its length. -/
inductive Body where
  | ChunkedBody (reader : List Nat)
  | SizedBody (reader : List Nat) (len : Nat)
deriving DecidableEq

/-- Rust `Body::size`: the length for `SizedBody`, `None` otherwise. -/
def Body.size : Body → Option Nat
  | .SizedBody _ len => some len
  | .ChunkedBody _ => none

/-- `impl IntoBody for &[u8]`: `SizedBody(BufReader::new(self), self.len())`. -/
def bytesIntoBody (bytes : List Nat) : Body :=
  .SizedBody bytes bytes.length

/-- `impl IntoBody for &str`: `self.as_bytes().into_body()`. -/
def strIntoBody (s : String) : Body :=
  bytesIntoBody (s.toUTF8.toList.map (fun b => b.toNat))

/-- `impl IntoBody for &mut R where R: Reader`: `ChunkedBody(self)`. -/
def readerIntoBody (reader : List Nat) : Body :=
  .ChunkedBody reader

/-- Rust `enum RedirectPolicy`. -/
inductive RedirectPolicy where
  | FollowNone
  | FollowAll
  | FollowIf (cond : Url → Bool)

/-- The error type of `HttpResult` (defined in `lib.rs`, outside `src/`): the
client only constructs `HttpUriError` and propagates others opaquely, so two
variants suffice for this core. -/
inductive HttpError where
  | HttpUriError
  | HttpIoError
deriving DecidableEq

/-- The slice of a wire `Response` this core reads: its status and its typed
`Location` header lookup (`res.headers.get::<Location>()`). -/
structure Response where
  status : StatusCode
  location : Option String
deriving DecidableEq

/-- Trace record of one physical hop: the request the client built for it.
`contentLength` is the `ContentLength` header value the client itself set on
this hop (`none` = the client's match set nothing; the caller overlay is kept
separately in `callerHeaders`), and `bodySent` records whether
`body.take().map(copy)` wrote body bytes on this hop. -/
structure Hop where
  method : Method
  url : Url
  callerHeaders : Option Headers
  contentLength : Option Nat
  bodySent : Bool
deriving DecidableEq

/-- The `match (can_have_body, body.as_ref())` of `Client::request` deciding
the `ContentLength` header: `(true, Some(body))` sets `body.size()` when
known and nothing when chunked; `(true, None)` sets `0`; otherwise nothing. -/
def contentLengthHeader (ch : Bool) (body : Option Body) : Option Nat :=
  match ch, body with
  | true, some b => b.size
  | true, none => some 0
  | _, _ => none

/-- Builds the trace record for one hop from the loop state at that hop. -/
def mkHop (method : Method) (url : Url) (hdrs : Option Headers) (ch : Bool)
    (body : Option Body) : Hop :=
  ⟨method, url, hdrs, contentLengthHeader ch body, body.isSome⟩

/-- The `loop { }` of `Client::request`, one constructor-faithful branch per
source path: perform the exchange (`env url`), propagate transport errors,
return any non-Redirection response, return a 3xx with a missing or
unresolvable Location, otherwise consult the policy on the resolved candidate
and either loop with the new URL and no body (`body.take()` emptied it) or
return the 3xx response.  `fuel` bounds the number of iterations we inspect;
result `none` means the loop was still running. -/
def requestLoop (policy : RedirectPolicy) (env : Url → Except HttpError Response)
    (resolve : Url → String → Option Url) (method : Method) (hdrs : Option Headers)
    (ch : Bool) : Nat → Url → Option Body → Option (Except HttpError Response) × List Hop
  | 0, _, _ => (none, [])
  | fuel + 1, url, body =>
    let hop := mkHop method url hdrs ch body
    match env url with
    | .error e => (some (.error e), [hop])
    | .ok res =>
      if StatusCode.«class» res.status ≠ StatusClass.Redirection then
        (some (.ok res), [hop])
      else
        match res.location with
        | none => (some (.ok res), [hop])
        | some loc =>
          match resolve url loc with
          | none => (some (.ok res), [hop])
          | some u =>
            match policy with
            | .FollowAll =>
              let rest := requestLoop policy env resolve method hdrs ch fuel u none
              (rest.1, hop :: rest.2)
            | .FollowIf cond =>
              if cond u then
                let rest := requestLoop policy env resolve method hdrs ch fuel u none
                (rest.1, hop :: rest.2)
              else (some (.ok res), [hop])
            | .FollowNone => (some (.ok res), [hop])

/-- Rust `struct Client<S>`: holds exactly the redirect policy. -/
structure Client where
  redirect_policy : RedirectPolicy

/-- Rust `Client::new`. -/
def Client.new (redirect_policy : RedirectPolicy) : Client :=
  ⟨redirect_policy⟩

/-- Rust `struct RequestOptions<'a, B: IntoBody<'a>>`. -/
structure RequestOptions (β : Type) where
  url : Url
  headers : Option Headers
  method : Method
  body : Option β

/-- Rust `Client::request`: compute `can_have_body` from the method,
materialize the supplied body through `IntoBody` only when a body is allowed
(`body.map(|b| b.into_body())`, else `None`), then run the redirect loop.
The `IntoBody` bound is the explicit dictionary `intoBody`; `env`/`resolve`
are the transport and URL-parsing collaborators; `fuel` is the loop bound. -/
def Client.request {β : Type} (c : Client) (intoBody : β → Body)
    (env : Url → Except HttpError Response) (resolve : Url → String → Option Url)
    (fuel : Nat) (options : RequestOptions β) :
    Option (Except HttpError Response) × List Hop :=
  let ch := can_have_body options.method
  let body := if ch then options.body.map intoBody else none
  requestLoop c.redirect_policy env resolve options.method options.headers ch fuel
    options.url body

/-- Rust `Client::get`: a request with method Get, no headers, no body
(`None::<&str>` with the `&str` IntoBody instance). -/
def Client.get (c : Client) (env : Url → Except HttpError Response)
    (resolve : Url → String → Option Url) (fuel : Nat) (url : Url) :
    Option (Except HttpError Response) × List Hop :=
  Client.request c strIntoBody env resolve fuel ⟨url, none, .Get, none⟩

/-- Rust `Client::post`: a request with method Post carrying the given body. -/
def Client.post {β : Type} (c : Client) (intoBody : β → Body)
    (env : Url → Except HttpError Response) (resolve : Url → String → Option Url)
    (fuel : Nat) (url : Url) (body : β) :
    Option (Except HttpError Response) × List Hop :=
  Client.request c intoBody env resolve fuel ⟨url, none, .Post, some body⟩

/-! ## Redirect chains

Scenario encoding for the redirect-chain claims: a list of links, each
pairing a URL with the 3xx response the transport returns there and the
Location string that resolves to the next link's URL (or to the final URL
after the last link). -/

/-- One link of a redirect chain: at `url` the transport answers `res`, a
Redirection-class response whose Location header is `loc`. -/
structure ChainLink where
  url : Url
  loc : String
  res : Response
deriving DecidableEq

/-- The URL the chain starts at (the final URL when the chain is empty). -/
def chainStart : List ChainLink → Url → Url
  | [], final => final
  | l :: _, _ => l.url

/-- The candidate URL produced by resolving link `i`'s Location: the next
link's URL, or the final URL after the last link. -/
def nextUrlAt (chain : List ChainLink) (final : Url) (i : Nat) : Url :=
  chainStart (chain.drop (i + 1)) final

/-- The chain describes `env`/`resolve`: each link's URL yields its 3xx
response, whose Location resolves to the next URL in the chain. -/
def chainOk (env : Url → Except HttpError Response)
    (resolve : Url → String → Option Url) : List ChainLink → Url → Prop
  | [], _ => True
  | l :: rest, final =>
    env l.url = .ok l.res ∧ StatusCode.«class» l.res.status = StatusClass.Redirection ∧
    l.res.location = some l.loc ∧ resolve l.url l.loc = some (chainStart rest final) ∧
    chainOk env resolve rest final

/-- Whether the policy match of the source lets the loop continue to
candidate URL `u`: `FollowAll` always, `FollowIf(cond)` iff `cond(u)`,
`FollowNone` never. -/
def policyFollows : RedirectPolicy → Url → Bool
  | .FollowAll, _ => true
  | .FollowIf cond, u => cond u
  | .FollowNone, _ => false

/-! ## Helper lemmas about the loop -/

lemma chainStart_nil (final : Url) : chainStart [] final = final := rfl

lemma chainStart_cons (l : ChainLink) (rest : List ChainLink) (final : Url) :
    chainStart (l :: rest) final = l.url := rfl

lemma mkHop_none (method : Method) (url : Url) (hdrs : Option Headers) (ch : Bool) :
    (mkHop method url hdrs ch none).bodySent = false
    ∧ (mkHop method url hdrs ch none).contentLength = (if ch then some 0 else none) := by
  cases ch <;> simp [mkHop, contentLengthHeader]

/-- Every hop of a run that starts with no body has no body written and the
body-absent Content-Length decision. -/
lemma requestLoop_none_body (policy : RedirectPolicy)
    (env : Url → Except HttpError Response) (resolve : Url → String → Option Url)
    (method : Method) (hdrs : Option Headers) (ch : Bool) :
    ∀ (fuel : Nat) (url : Url) (hop : Hop),
      hop ∈ (requestLoop policy env resolve method hdrs ch fuel url none).2 →
      hop.bodySent = false ∧ hop.contentLength = (if ch then some 0 else none) := by
  intro fuel
  induction fuel with
  | zero =>
    intro url hop hmem
    simp [requestLoop] at hmem
  | succ f ih =>
    intro url hop hmem
    simp only [requestLoop] at hmem
    rcases henv : env url with e | res <;> simp only [henv] at hmem
    · simp at hmem
      subst hmem
      exact mkHop_none method url hdrs ch
    · by_cases hred : StatusCode.«class» res.status ≠ StatusClass.Redirection
      · rw [if_pos hred] at hmem
        simp at hmem
        subst hmem
        exact mkHop_none method url hdrs ch
      · rw [if_neg hred] at hmem
        rcases hloc : res.location with _ | loc <;> simp only [hloc] at hmem
        · simp at hmem
          subst hmem
          exact mkHop_none method url hdrs ch
        · rcases hresolve : resolve url loc with _ | u <;> simp only [hresolve] at hmem
          · simp at hmem
            subst hmem
            exact mkHop_none method url hdrs ch
          · cases policy with
            | FollowAll =>
              simp only [List.mem_cons] at hmem
              rcases hmem with hmem | hmem
              · subst hmem
                exact mkHop_none method url hdrs ch
              · exact ih u hop hmem
            | FollowIf cond =>
              by_cases hcond : cond u = true
              · simp only [hcond, if_true, List.mem_cons] at hmem
                rcases hmem with hmem | hmem
                · subst hmem
                  exact mkHop_none method url hdrs ch
                · exact ih u hop hmem
              · simp only [hcond, if_false, Bool.false_eq_true] at hmem
                simp at hmem
                subst hmem
                exact mkHop_none method url hdrs ch
            | FollowNone =>
              simp at hmem
              subst hmem
              exact mkHop_none method url hdrs ch

/-- The first hop of any run with fuel left records the initial loop state. -/
lemma requestLoop_head (policy : RedirectPolicy) (env : Url → Except HttpError Response)
    (resolve : Url → String → Option Url) (method : Method) (hdrs : Option Headers)
    (ch : Bool) (fuel : Nat) (url : Url) (body : Option Body) :
    (requestLoop policy env resolve method hdrs ch (fuel + 1) url body).2.take 1
      = [mkHop method url hdrs ch body] := by
  simp only [requestLoop]
  rcases env url with e | res <;> simp only []
  · rfl
  · by_cases hred : StatusCode.«class» res.status ≠ StatusClass.Redirection
    · rw [if_pos hred]
      rfl
    · rw [if_neg hred]
      rcases res.location with _ | loc <;> simp only []
      · rfl
      · rcases resolve url loc with _ | u <;> simp only []
        · rfl
        · cases policy with
          | FollowAll => rfl
          | FollowIf cond => by_cases hcond : cond u = true <;> simp [hcond]
          | FollowNone => rfl

/-- Every hop after the first proceeds with no body: `body.take()` emptied the
body slot before the first recursion, so the tail of any trace consists of
hops with `bodySent = false` and the body-absent Content-Length decision. -/
lemma requestLoop_tail (policy : RedirectPolicy) (env : Url → Except HttpError Response)
    (resolve : Url → String → Option Url) (method : Method) (hdrs : Option Headers)
    (ch : Bool) (fuel : Nat) (url : Url) (body : Option Body) :
    ∀ hop ∈ (requestLoop policy env resolve method hdrs ch fuel url body).2.drop 1,
      hop.bodySent = false ∧ hop.contentLength = (if ch then some 0 else none) := by
  cases fuel with
  | zero =>
    intro hop hmem
    simp [requestLoop] at hmem
  | succ f =>
    intro hop hmem
    simp only [requestLoop] at hmem
    rcases henv : env url with e | res <;> simp only [henv] at hmem
    · simp at hmem
    · by_cases hred : StatusCode.«class» res.status ≠ StatusClass.Redirection
      · rw [if_pos hred] at hmem
        simp at hmem
      · rw [if_neg hred] at hmem
        rcases hloc : res.location with _ | loc <;> simp only [hloc] at hmem
        · simp at hmem
        · rcases hresolve : resolve url loc with _ | u <;> simp only [hresolve] at hmem
          · simp at hmem
          · cases policy with
            | FollowAll =>
              simp only [List.drop_succ_cons, List.drop_zero] at hmem
              exact requestLoop_none_body _ env resolve method hdrs ch f u hop hmem
            | FollowIf cond =>
              by_cases hcond : cond u = true
              · simp only [hcond, if_true, List.drop_succ_cons, List.drop_zero] at hmem
                exact requestLoop_none_body _ env resolve method hdrs ch f u hop hmem
              · simp only [hcond, if_false, Bool.false_eq_true] at hmem
                simp at hmem
            | FollowNone =>
              simp at hmem

/-- Running the loop from the start of a chain whose every candidate the
policy follows performs one hop per link plus the terminal hop and returns
the terminal response. -/
lemma requestLoop_chain (policy : RedirectPolicy) (env : Url → Except HttpError Response)
    (resolve : Url → String → Option Url) (method : Method) (hdrs : Option Headers)
    (ch : Bool) :
    ∀ (chain : List ChainLink) (final : Url) (finalRes : Response) (fuel : Nat)
      (body : Option Body),
      chainOk env resolve chain final →
      (∀ i, i < chain.length → policyFollows policy (nextUrlAt chain final i) = true) →
      env final = .ok finalRes →
      StatusCode.«class» finalRes.status ≠ StatusClass.Redirection →
      chain.length < fuel →
      (requestLoop policy env resolve method hdrs ch fuel (chainStart chain final) body).1
          = some (.ok finalRes)
        ∧ (requestLoop policy env resolve method hdrs ch fuel
            (chainStart chain final) body).2.length = chain.length + 1 := by
  intro chain
  induction chain with
  | nil =>
    intro final finalRes fuel body _ _ hfinal hterm hfuel
    obtain ⟨f, rfl⟩ : ∃ f, fuel = f + 1 := ⟨fuel - 1, by omega⟩
    simp only [chainStart_nil, requestLoop, hfinal, if_pos hterm]
    simp
  | cons l rest ih =>
    intro final finalRes fuel body hchain hfollow hfinal hterm hfuel
    obtain ⟨henvl, hred, hloc, hresolve, hrest⟩ := hchain
    obtain ⟨f, rfl⟩ : ∃ f, fuel = f + 1 := ⟨fuel - 1, by omega⟩
    have hcont : policyFollows policy (chainStart rest final) = true := by
      have h0 := hfollow 0 (by simp)
      simpa [nextUrlAt] using h0
    have hfollow' : ∀ i, i < rest.length →
        policyFollows policy (nextUrlAt rest final i) = true := by
      intro i hi
      have := hfollow (i + 1) (by simp only [List.length_cons]; omega)
      simpa [nextUrlAt] using this
    have ihres := ih final finalRes f none hrest hfollow' hfinal hterm
      (by simp only [List.length_cons] at hfuel; omega)
    have hredFalse : ¬ StatusCode.«class» l.res.status ≠ StatusClass.Redirection := by
      simp [hred]
    simp only [chainStart_cons, requestLoop, henvl, if_neg hredFalse, hloc, hresolve]
    cases policy with
    | FollowAll =>
      exact ⟨ihres.1, by simp [ihres.2]⟩
    | FollowIf cond =>
      have hcond : cond (chainStart rest final) = true := by
        simpa [policyFollows] using hcont
      simp only [hcond, if_true]
      exact ⟨ihres.1, by simp [ihres.2]⟩
    | FollowNone =>
      simp [policyFollows] at hcont

/-- Running the loop under `FollowIf` from the start of a chain whose first
`pre.length` candidates the predicate accepts and whose next candidate it
rejects stops at the rejecting link, returning that link's 3xx response after
`pre.length + 1` hops. -/
lemma requestLoop_followIf_reject (env : Url → Except HttpError Response)
    (resolve : Url → String → Option Url) (method : Method) (hdrs : Option Headers)
    (ch : Bool) (pred : Url → Bool) :
    ∀ (pre : List ChainLink) (link : ChainLink) (post : List ChainLink) (final : Url)
      (fuel : Nat) (body : Option Body),
      chainOk env resolve (pre ++ link :: post) final →
      (∀ i, i < pre.length → pred (nextUrlAt (pre ++ link :: post) final i) = true) →
      pred (nextUrlAt (pre ++ link :: post) final pre.length) = false →
      pre.length < fuel →
      (requestLoop (.FollowIf pred) env resolve method hdrs ch fuel
          (chainStart (pre ++ link :: post) final) body).1 = some (.ok link.res)
        ∧ (requestLoop (.FollowIf pred) env resolve method hdrs ch fuel
            (chainStart (pre ++ link :: post) final) body).2.length = pre.length + 1 := by
  intro pre
  induction pre with
  | nil =>
    intro link post final fuel body hchain _ hreject hfuel
    obtain ⟨henvl, hred, hloc, hresolve, _⟩ := hchain
    obtain ⟨f, rfl⟩ : ∃ f, fuel = f + 1 := ⟨fuel - 1, by omega⟩
    have hredFalse : ¬ StatusCode.«class» link.res.status ≠ StatusClass.Redirection := by
      simp [hred]
    have hcond : pred (chainStart post final) = false := by
      simpa [nextUrlAt] using hreject
    simp only [List.nil_append, chainStart_cons, requestLoop, henvl, if_neg hredFalse, hloc,
      hresolve, hcond, Bool.false_eq_true, if_false]
    simp
  | cons p pre' ih =>
    intro link post final fuel body hchain hfollow hreject hfuel
    obtain ⟨henvp, hred, hloc, hresolve, hrest⟩ := hchain
    simp only [List.append_eq] at hresolve hrest
    obtain ⟨f, rfl⟩ : ∃ f, fuel = f + 1 := ⟨fuel - 1, by omega⟩
    have hredFalse : ¬ StatusCode.«class» p.res.status ≠ StatusClass.Redirection := by
      simp [hred]
    have hcont : pred (chainStart (pre' ++ link :: post) final) = true := by
      have h0 := hfollow 0 (by simp)
      simpa [nextUrlAt] using h0
    have hfollow' : ∀ i, i < pre'.length →
        pred (nextUrlAt (pre' ++ link :: post) final i) = true := by
      intro i hi
      have := hfollow (i + 1) (by simp only [List.length_cons]; omega)
      simpa [nextUrlAt] using this
    have hreject' : pred (nextUrlAt (pre' ++ link :: post) final pre'.length) = false := by
      simpa [nextUrlAt] using hreject
    have ihres := ih link post final f none hrest hfollow' hreject'
      (by simp only [List.length_cons] at hfuel; omega)
    simp only [List.cons_append, chainStart_cons, requestLoop, henvp, if_neg hredFalse, hloc,
      hresolve, hcont, if_true]
    exact ⟨ihres.1, by simp [ihres.2]⟩

/-! ## Claims about the status-code model -/

/-- C8: for every status code in [100,599], `class(code).default_code()` is
one of 100/200/300/400/500 (the x00 representative of the code's class), and
classifying that default code yields the same class again. -/
theorem c8_class_default_code (code : Nat) (h1 : 100 ≤ code) (h2 : code ≤ 599) :
    ((StatusCode.from_code code).«class».default_code.code = 100
      ∨ (StatusCode.from_code code).«class».default_code.code = 200
      ∨ (StatusCode.from_code code).«class».default_code.code = 300
      ∨ (StatusCode.from_code code).«class».default_code.code = 400
      ∨ (StatusCode.from_code code).«class».default_code.code = 500)
    ∧ StatusCode.«class» ((StatusCode.from_code code).«class».default_code)
        = StatusCode.«class» (StatusCode.from_code code) := by
  simp only [StatusCode.from_code, StatusCode.«class», StatusClass.default_code,
    StatusClass.discriminant]
  split_ifs <;> simp_all

/-- Witness for C8 at the in-range code 418. -/
theorem c8_witness :
    ((StatusCode.from_code 418).«class».default_code.code = 100
      ∨ (StatusCode.from_code 418).«class».default_code.code = 200
      ∨ (StatusCode.from_code 418).«class».default_code.code = 300
      ∨ (StatusCode.from_code 418).«class».default_code.code = 400
      ∨ (StatusCode.from_code 418).«class».default_code.code = 500)
    ∧ StatusCode.«class» ((StatusCode.from_code 418).«class».default_code)
        = StatusCode.«class» (StatusCode.from_code 418) :=
  c8_class_default_code 418 (by decide) (by decide)

/-- C9: the validating numeric constructors `from_i64`/`from_u64` return
`none` for every input below 100 or above 599, and for every input in
[100,599] they succeed with a StatusCode whose value is exactly the input —
no clamping, no rounding. -/
theorem c9_from_primitive (n : Int) (m : Nat) :
    ((n < 100 ∨ 599 < n) → StatusCode.from_i64 n = none)
    ∧ (100 ≤ n → n ≤ 599 → StatusCode.from_i64 n = some ⟨n.toNat⟩)
    ∧ ((m < 100 ∨ 599 < m) → StatusCode.from_u64 m = none)
    ∧ (100 ≤ m → m ≤ 599 → StatusCode.from_u64 m = some ⟨m⟩) := by
  refine ⟨?_, ?_, ?_, ?_⟩
  · intro h
    simp [StatusCode.from_i64, h]
  · intro hlo hhi
    have hn : ¬(n < 100 ∨ 599 < n) := by omega
    have hmod : n.toNat % 65536 = n.toNat := Nat.mod_eq_of_lt (by omega)
    simp [StatusCode.from_i64, hn, hmod]
  · intro h
    simp [StatusCode.from_u64, h]
  · intro hlo hhi
    have hm : ¬(m < 100 ∨ 599 < m) := by omega
    have hmod : m % 65536 = m := Nat.mod_eq_of_lt (by omega)
    simp [StatusCode.from_u64, hm, hmod]

/-- Witness for C9: failures below/above range (including a negative input)
and exact successes inside the range. -/
theorem c9_witness :
    StatusCode.from_i64 99 = none ∧ StatusCode.from_i64 (-5) = none
    ∧ StatusCode.from_i64 418 = some ⟨418⟩
    ∧ StatusCode.from_u64 600 = none ∧ StatusCode.from_u64 100 = some ⟨100⟩ :=
  ⟨(c9_from_primitive 99 600).1 (by decide),
   (c9_from_primitive (-5) 600).1 (by decide),
   (c9_from_primitive 418 600).2.1 (by decide) (by decide),
   (c9_from_primitive 0 600).2.2.1 (by decide),
   (c9_from_primitive 0 100).2.2.2 (by decide) (by decide)⟩

/-- C10: `from_code` performs no range validation — for every `u16` input it
returns a StatusCode with exactly that value — and `class` is total on such
codes: everything below 200 (codes below 100 included) is Informational and
everything at or above 500 (codes above 599 included) is ServerError. -/
theorem c10_from_code_total (n : Nat) (h : n < 65536) :
    (StatusCode.from_code n).code = n
    ∧ (n < 200 → StatusCode.«class» (StatusCode.from_code n) = StatusClass.Informational)
    ∧ (500 ≤ n → StatusCode.«class» (StatusCode.from_code n) = StatusClass.ServerError) := by
  refine ⟨rfl, ?_, ?_⟩
  · intro h2
    simp [StatusCode.from_code, StatusCode.«class», h2]
  · intro h2
    simp only [StatusCode.from_code, StatusCode.«class»]
    split_ifs <;> first | rfl | omega

/-- Witness for C10 at the out-of-range codes 60000 and 50. -/
theorem c10_witness :
    (StatusCode.from_code 60000).code = 60000
    ∧ StatusCode.«class» (StatusCode.from_code 60000) = StatusClass.ServerError
    ∧ StatusCode.«class» (StatusCode.from_code 50) = StatusClass.Informational :=
  ⟨(c10_from_code_total 60000 (by decide)).1,
   (c10_from_code_total 60000 (by decide)).2.2 (by decide),
   (c10_from_code_total 50 (by decide)).2.1 (by decide)⟩

/-! ## Claims about the client control loop -/

/-- C1: for a redirect chain of `chain.length` Redirection-class responses,
each with a Location resolving to the next URL, ending in a non-3xx response
at `final`, `Client::request` under `FollowAll` terminates (yields `some`)
with exactly that final response, and the full chain of responses — the
`chain.length` redirect hops followed, plus the terminal exchange — accounts
for every hop performed: the trace has length `chain.length + 1`. -/
theorem c1_follow_all_chain {β : Type} (intoBody : β → Body)
    (env : Url → Except HttpError Response) (resolve : Url → String → Option Url)
    (chain : List ChainLink) (final : Url) (finalRes : Response)
    (fuel : Nat) (opts : RequestOptions β)
    (hurl : opts.url = chainStart chain final)
    (hchain : chainOk env resolve chain final)
    (hfinal : env final = .ok finalRes)
    (hterm : StatusCode.«class» finalRes.status ≠ StatusClass.Redirection)
    (hfuel : chain.length < fuel) :
    (Client.request (Client.new .FollowAll) intoBody env resolve fuel opts).1
        = some (.ok finalRes)
    ∧ (Client.request (Client.new .FollowAll) intoBody env resolve fuel opts).2.length
        = chain.length + 1 := by
  have hreq : Client.request (Client.new .FollowAll) intoBody env resolve fuel opts
      = requestLoop .FollowAll env resolve opts.method opts.headers
          (can_have_body opts.method) fuel opts.url
          (if can_have_body opts.method then opts.body.map intoBody else none) := rfl
  rw [hreq, hurl]
  exact requestLoop_chain .FollowAll env resolve opts.method opts.headers _
    chain final finalRes fuel _ hchain (fun i _ => rfl) hfinal hterm hfuel

/-- C2: when the method is Get or Head, no hop carries a client-set
Content-Length header and no hop writes body bytes, and the whole run is
independent of the `IntoBody` dictionary — the supplied body value is
discarded without ever being materialized. -/
theorem c2_get_head_bodyless {β : Type} (intoBody intoBody' : β → Body) (c : Client)
    (env : Url → Except HttpError Response) (resolve : Url → String → Option Url)
    (fuel : Nat) (opts : RequestOptions β)
    (hm : opts.method = Method.Get ∨ opts.method = Method.Head) :
    (∀ hop ∈ (Client.request c intoBody env resolve fuel opts).2,
        hop.contentLength = none ∧ hop.bodySent = false)
    ∧ Client.request c intoBody env resolve fuel opts
        = Client.request c intoBody' env resolve fuel opts := by
  have hch : can_have_body opts.method = false := by
    rcases hm with h | h <;> rw [h] <;> rfl
  have hreq : ∀ g : β → Body, Client.request c g env resolve fuel opts
      = requestLoop c.redirect_policy env resolve opts.method opts.headers false fuel
          opts.url none := by
    intro g
    simp [Client.request, hch]
  constructor
  · intro hop hmem
    rw [hreq intoBody] at hmem
    have h := requestLoop_none_body c.redirect_policy env resolve opts.method opts.headers
      false fuel opts.url hop hmem
    refine ⟨?_, h.1⟩
    simpa using h.2
  · rw [hreq intoBody, hreq intoBody']

/-- C3: with a body-capable method, the first hop's client-set Content-Length
follows the materialized body — `n` for `Sized(n)`, unset for `Chunked`, `0`
when no body was supplied — and every later hop (where the body has already
been consumed) sets Content-Length 0. -/
theorem c3_content_length_decision {β : Type} (intoBody : β → Body) (c : Client)
    (env : Url → Except HttpError Response) (resolve : Url → String → Option Url)
    (fuel : Nat) (opts : RequestOptions β)
    (h1 : opts.method ≠ Method.Get) (h2 : opts.method ≠ Method.Head) :
    (∀ hop ∈ (Client.request c intoBody env resolve fuel opts).2.take 1,
        hop.contentLength = match opts.body.map intoBody with
          | some (Body.SizedBody _ n) => some n
          | some (Body.ChunkedBody _) => none
          | none => some 0)
    ∧ (∀ hop ∈ (Client.request c intoBody env resolve fuel opts).2.drop 1,
        hop.contentLength = some 0) := by
  have hch : can_have_body opts.method = true := by
    cases hmeth : opts.method <;> simp_all [can_have_body]
  have hreq : Client.request c intoBody env resolve fuel opts
      = requestLoop c.redirect_policy env resolve opts.method opts.headers true fuel
          opts.url (opts.body.map intoBody) := by
    simp [Client.request, hch]
  constructor
  · intro hop hmem
    rw [hreq] at hmem
    cases fuel with
    | zero => simp [requestLoop] at hmem
    | succ f =>
      rw [requestLoop_head] at hmem
      simp only [List.mem_singleton] at hmem
      subst hmem
      cases hbody : opts.body.map intoBody with
      | none => simp [mkHop, contentLengthHeader]
      | some b => cases b <;> simp [mkHop, contentLengthHeader, Body.size]
  · intro hop hmem
    rw [hreq] at hmem
    have h := requestLoop_tail c.redirect_policy env resolve opts.method opts.headers true
      fuel opts.url (opts.body.map intoBody) hop hmem
    simpa using h.2

/-- C4: a hop whose 3xx response has no Location header, or a Location that
fails to resolve against the current URL, is terminal: the loop returns that
response as an `Ok` value after this single hop, under every policy.  Stated
on `requestLoop` with arbitrary current URL and body state, this covers every
hop of every `Client::request` call. -/
theorem c4_missing_or_bad_location (policy : RedirectPolicy)
    (env : Url → Except HttpError Response) (resolve : Url → String → Option Url)
    (method : Method) (hdrs : Option Headers) (ch : Bool)
    (fuel : Nat) (url : Url) (body : Option Body) (res : Response)
    (hfuel : 0 < fuel) (henv : env url = .ok res)
    (hred : StatusCode.«class» res.status = StatusClass.Redirection)
    (hloc : res.location = none
      ∨ ∃ loc, res.location = some loc ∧ resolve url loc = none) :
    (requestLoop policy env resolve method hdrs ch fuel url body).1 = some (.ok res)
    ∧ (requestLoop policy env resolve method hdrs ch fuel url body).2.length = 1 := by
  obtain ⟨f, rfl⟩ : ∃ f, fuel = f + 1 := ⟨fuel - 1, by omega⟩
  have hredFalse : ¬ StatusCode.«class» res.status ≠ StatusClass.Redirection := by
    simp [hred]
  rcases hloc with hnone | ⟨loc, hsome, hres⟩
  · simp only [requestLoop, henv, if_neg hredFalse, hnone]
    simp
  · simp only [requestLoop, henv, if_neg hredFalse, hsome, hres]
    simp

/-- C5: the materialized body is consumed at most once per call: every hop
after the first writes no body bytes, and at most one hop of the whole trace
writes body bytes. -/
theorem c5_body_consumed_once {β : Type} (intoBody : β → Body) (c : Client)
    (env : Url → Except HttpError Response) (resolve : Url → String → Option Url)
    (fuel : Nat) (opts : RequestOptions β) :
    (∀ hop ∈ (Client.request c intoBody env resolve fuel opts).2.drop 1,
        hop.bodySent = false)
    ∧ (Client.request c intoBody env resolve fuel opts).2.countP
        (fun hop => hop.bodySent) ≤ 1 := by
  have hreq : Client.request c intoBody env resolve fuel opts
      = requestLoop c.redirect_policy env resolve opts.method opts.headers
          (can_have_body opts.method) fuel opts.url
          (if can_have_body opts.method then opts.body.map intoBody else none) := rfl
  constructor
  · intro hop hmem
    rw [hreq] at hmem
    exact (requestLoop_tail c.redirect_policy env resolve opts.method opts.headers
      (can_have_body opts.method) fuel opts.url _ hop hmem).1
  · rw [hreq]
    rcases htr : (requestLoop c.redirect_policy env resolve opts.method opts.headers
        (can_have_body opts.method) fuel opts.url
        (if can_have_body opts.method then opts.body.map intoBody else none)).2
      with _ | ⟨h0, t⟩
    · simp
    · have htail : ∀ hop ∈ t, hop.bodySent = false := by
        intro hop hm2
        refine (requestLoop_tail c.redirect_policy env resolve opts.method opts.headers
          (can_have_body opts.method) fuel opts.url
          (if can_have_body opts.method then opts.body.map intoBody else none) hop ?_).1
        rw [htr]
        simpa using hm2
      have hzero : t.countP (fun hop => hop.bodySent) = 0 := by
        refine List.countP_eq_zero.mpr ?_
        intro a ha
        simp [htail a ha]
      simp only [List.countP_cons, hzero]
      split_ifs <;> omega

/-- C6: under `FollowNone` the call returns the first response received,
unmodified (the transport's answer for the initial URL, whatever its status),
after exactly one hop. -/
theorem c6_follow_none_first_response {β : Type} (intoBody : β → Body)
    (env : Url → Except HttpError Response) (resolve : Url → String → Option Url)
    (fuel : Nat) (opts : RequestOptions β) (hfuel : 0 < fuel) :
    (Client.request (Client.new .FollowNone) intoBody env resolve fuel opts).1
        = some (env opts.url)
    ∧ (Client.request (Client.new .FollowNone) intoBody env resolve fuel opts).2.length
        = 1 := by
  have hreq : Client.request (Client.new .FollowNone) intoBody env resolve fuel opts
      = requestLoop .FollowNone env resolve opts.method opts.headers
          (can_have_body opts.method) fuel opts.url
          (if can_have_body opts.method then opts.body.map intoBody else none) := rfl
  rw [hreq]
  obtain ⟨f, rfl⟩ : ∃ f, fuel = f + 1 := ⟨fuel - 1, by omega⟩
  rcases henv : env opts.url with e | res <;> simp only [requestLoop, henv]
  · simp
  · by_cases hred : StatusCode.«class» res.status ≠ StatusClass.Redirection
    · rw [if_pos hred]
      simp
    · rw [if_neg hred]
      rcases hloc : res.location with _ | loc <;> simp only [hloc]
      · simp
      · rcases hres : resolve opts.url loc with _ | u <;> simp only [hres]
        · simp
        · simp

/-- C7: under `FollowIf(pred)` on a redirect chain, the call keeps looping
exactly while the predicate accepts each resolved candidate URL: if the
predicate accepts every candidate the final non-redirect response is
returned after the whole chain, and if it first rejects the candidate
produced at link `pre.length` the call returns that link's 3xx response
after `pre.length + 1` hops. -/
theorem c7_follow_if {β : Type} (intoBody : β → Body) (pred : Url → Bool)
    (env : Url → Except HttpError Response) (resolve : Url → String → Option Url)
    (chain : List ChainLink) (final : Url) (finalRes : Response)
    (fuel : Nat) (opts : RequestOptions β)
    (hurl : opts.url = chainStart chain final)
    (hchain : chainOk env resolve chain final)
    (hfinal : env final = .ok finalRes)
    (hterm : StatusCode.«class» finalRes.status ≠ StatusClass.Redirection)
    (hfuel : chain.length < fuel) :
    ((∀ i, i < chain.length → pred (nextUrlAt chain final i) = true) →
      (Client.request (Client.new (.FollowIf pred)) intoBody env resolve fuel opts).1
          = some (.ok finalRes)
        ∧ (Client.request (Client.new (.FollowIf pred)) intoBody env resolve
            fuel opts).2.length = chain.length + 1)
    ∧ (∀ pre link post, chain = pre ++ link :: post →
        (∀ i, i < pre.length → pred (nextUrlAt chain final i) = true) →
        pred (nextUrlAt chain final pre.length) = false →
        (Client.request (Client.new (.FollowIf pred)) intoBody env resolve fuel opts).1
            = some (.ok link.res)
          ∧ (Client.request (Client.new (.FollowIf pred)) intoBody env resolve
              fuel opts).2.length = pre.length + 1) := by
  have hreq : Client.request (Client.new (.FollowIf pred)) intoBody env resolve fuel opts
      = requestLoop (.FollowIf pred) env resolve opts.method opts.headers
          (can_have_body opts.method) fuel opts.url
          (if can_have_body opts.method then opts.body.map intoBody else none) := rfl
  constructor
  · intro haccept
    rw [hreq, hurl]
    exact requestLoop_chain (.FollowIf pred) env resolve opts.method opts.headers _
      chain final finalRes fuel _ hchain (fun i hi => haccept i hi) hfinal hterm hfuel
  · intro pre link post hsplit haccept hreject
    subst hsplit
    rw [hreq, hurl]
    refine requestLoop_followIf_reject env resolve opts.method opts.headers _ pred
      pre link post final fuel _ hchain haccept hreject ?_
    simp only [List.length_append, List.length_cons] at hfuel
    omega

/-! ## Concrete witness scenario

The three-exchange scenario of the source's mock-connector test:
`http://a` answers 301 with Location `http://b`, `http://b` answers 302 with
Location `http://c`, everything else answers 200. -/

/-- Scripted transport for the witness runs. -/
def chainEnv : Url → Except HttpError Response := fun u =>
  if u = "http://a" then .ok ⟨⟨301⟩, some "http://b"⟩
  else if u = "http://b" then .ok ⟨⟨302⟩, some "http://c"⟩
  else .ok ⟨⟨200⟩, none⟩

/-- Witness resolver: every Location value is already absolute. -/
def chainResolve : Url → String → Option Url := fun _ l => some l

/-- The two redirect links of the witness scenario. -/
def chainLinks : List ChainLink :=
  [⟨"http://a", "http://b", ⟨⟨301⟩, some "http://b"⟩⟩,
   ⟨"http://b", "http://c", ⟨⟨302⟩, some "http://c"⟩⟩]

lemma chainLinks_ok : chainOk chainEnv chainResolve chainLinks "http://c" :=
  ⟨rfl, rfl, rfl, rfl, rfl, rfl, rfl, rfl, trivial⟩

/-- Witness for C1: the two-redirect chain under FollowAll ends at the 200
response after three hops. -/
theorem c1_witness :
    (Client.request (Client.new .FollowAll) (fun b : Body => b) chainEnv chainResolve 3
        ⟨"http://a", none, Method.Get, none⟩).1 = some (.ok ⟨⟨200⟩, none⟩)
    ∧ (Client.request (Client.new .FollowAll) (fun b : Body => b) chainEnv chainResolve 3
        ⟨"http://a", none, Method.Get, none⟩).2.length = 3 :=
  c1_follow_all_chain (fun b => b) chainEnv chainResolve chainLinks "http://c"
    ⟨⟨200⟩, none⟩ 3 ⟨"http://a", none, Method.Get, none⟩ rfl chainLinks_ok rfl
    (by decide) (by decide)

/-- Witness for C2: a Get request whose options carry a sized body still
produces a first hop with no Content-Length and no body bytes, and the run
equals the run under a different IntoBody dictionary. -/
theorem c2_witness :
    ((mkHop Method.Get "http://a" none false none).contentLength = none
      ∧ (mkHop Method.Get "http://a" none false none).bodySent = false)
    ∧ Client.request (Client.new .FollowAll) (fun b : Body => b) chainEnv chainResolve 3
        ⟨"http://a", none, Method.Get, some (Body.SizedBody [1] 1)⟩
      = Client.request (Client.new .FollowAll) (fun _ : Body => Body.ChunkedBody [])
          chainEnv chainResolve 3
          ⟨"http://a", none, Method.Get, some (Body.SizedBody [1] 1)⟩ :=
  ⟨(c2_get_head_bodyless (fun b : Body => b) (fun _ : Body => Body.ChunkedBody [])
      (Client.new .FollowAll) chainEnv chainResolve 3
      ⟨"http://a", none, Method.Get, some (Body.SizedBody [1] 1)⟩ (Or.inl rfl)).1
      (mkHop Method.Get "http://a" none false none) (by decide),
   (c2_get_head_bodyless (fun b : Body => b) (fun _ : Body => Body.ChunkedBody [])
      (Client.new .FollowAll) chainEnv chainResolve 3
      ⟨"http://a", none, Method.Get, some (Body.SizedBody [1] 1)⟩ (Or.inl rfl)).2⟩

/-- Witness for C3: a Post with a 2-byte sized body sets Content-Length 2 on
the first hop and Content-Length 0 on the (bodyless) second hop. -/
theorem c3_witness :
    (mkHop Method.Post "http://a" none true (some (Body.SizedBody [7, 8] 2))).contentLength
        = some 2
    ∧ (mkHop Method.Post "http://b" none true none).contentLength = some 0 :=
  ⟨(c3_content_length_decision (fun b : Body => b) (Client.new .FollowAll) chainEnv
      chainResolve 3 ⟨"http://a", none, Method.Post, some (Body.SizedBody [7, 8] 2)⟩
      (by decide) (by decide)).1
      (mkHop Method.Post "http://a" none true (some (Body.SizedBody [7, 8] 2))) (by decide),
   (c3_content_length_decision (fun b : Body => b) (Client.new .FollowAll) chainEnv
      chainResolve 3 ⟨"http://a", none, Method.Post, some (Body.SizedBody [7, 8] 2)⟩
      (by decide) (by decide)).2
      (mkHop Method.Post "http://b" none true none) (by decide)⟩

/-- Witness for C4: a 301 response with no Location header is returned as the
terminal Ok result after one hop, under FollowAll. -/
theorem c4_witness :
    (requestLoop .FollowAll (fun _ => .ok ⟨⟨301⟩, none⟩) (fun _ _ => none) Method.Get none
        false 1 "http://a" none).1 = some (.ok ⟨⟨301⟩, none⟩)
    ∧ (requestLoop .FollowAll (fun _ => .ok ⟨⟨301⟩, none⟩) (fun _ _ => none) Method.Get none
        false 1 "http://a" none).2.length = 1 :=
  c4_missing_or_bad_location .FollowAll (fun _ => .ok ⟨⟨301⟩, none⟩) (fun _ _ => none)
    Method.Get none false 1 "http://a" none ⟨⟨301⟩, none⟩ (by decide) rfl (by decide)
    (Or.inl rfl)

/-- Witness for C5: the second hop of a redirected Post with a sized body
writes no body bytes. -/
theorem c5_witness : (mkHop Method.Post "http://b" none true none).bodySent = false :=
  (c5_body_consumed_once (fun b : Body => b) (Client.new .FollowAll) chainEnv chainResolve 3
    ⟨"http://a", none, Method.Post, some (Body.SizedBody [7, 8] 2)⟩).1
    (mkHop Method.Post "http://b" none true none) (by decide)

/-- Witness for C6: FollowNone returns the initial 301 response unchanged
after a single hop. -/
theorem c6_witness :
    (Client.request (Client.new .FollowNone) (fun b : Body => b) chainEnv chainResolve 3
        ⟨"http://a", none, Method.Get, none⟩).1 = some (.ok ⟨⟨301⟩, some "http://b"⟩)
    ∧ (Client.request (Client.new .FollowNone) (fun b : Body => b) chainEnv chainResolve 3
        ⟨"http://a", none, Method.Get, none⟩).2.length = 1 :=
  c6_follow_none_first_response (fun b : Body => b) chainEnv chainResolve 3
    ⟨"http://a", none, Method.Get, none⟩ (by decide)

/-- Witness for C7: a predicate rejecting `http://c` stops the chain at the
302 response from `http://b` after two hops. -/
theorem c7_witness :
    (Client.request (Client.new (.FollowIf (fun u => !(u == "http://c"))))
        (fun b : Body => b) chainEnv chainResolve 3
        ⟨"http://a", none, Method.Get, none⟩).1 = some (.ok ⟨⟨302⟩, some "http://c"⟩)
    ∧ (Client.request (Client.new (.FollowIf (fun u => !(u == "http://c"))))
        (fun b : Body => b) chainEnv chainResolve 3
        ⟨"http://a", none, Method.Get, none⟩).2.length = 2 :=
  (c7_follow_if (fun b : Body => b) (fun u => !(u == "http://c")) chainEnv chainResolve
      chainLinks "http://c" ⟨⟨200⟩, none⟩ 3 ⟨"http://a", none, Method.Get, none⟩ rfl
      chainLinks_ok rfl (by decide) (by decide)).2
    [⟨"http://a", "http://b", ⟨⟨301⟩, some "http://b"⟩⟩]
    ⟨"http://b", "http://c", ⟨⟨302⟩, some "http://c"⟩⟩ [] rfl (by decide) (by decide)

end Hyper
